import Mathlib

/-!
Verification of the update-specification engine and the legacy batch
upconverter of this repository.  The engine definitions (field paths,
mutable document tree, modifier parser, application engine, shard-key
affect tracker and invariance verifier) are modelled from the spec, since
only their test file is present in the sources; the batch upconverter is
embedded directly from `src/mongo/s/batch_upconvert.cpp`.
-/

set_option autoImplicit false

namespace Mongo

/-- Modelled from the spec: a document value — scalar (number, string,
boolean, null), ordered array, or object with insertion-ordered named
fields.  This is the value universe of the Mutable Document Tree; the
implementation (mutablebson) is missing from the sources. -/
inductive BVal where
  | num (n : Int)
  | str (s : String)
  | boolean (b : Bool)
  | null
  | arr (xs : List BVal)
  | obj (fs : List (String × BVal))

mutual

/-- Modelled from the spec: deep structural equality of document values
(the engine's woCompare-style comparison with result zero). -/
def BVal.beq : BVal → BVal → Bool
  | .num a, .num b => a == b
  | .str a, .str b => a == b
  | .boolean a, .boolean b => a == b
  | .null, .null => true
  | .arr a, .arr b => BVal.beqL a b
  | .obj a, .obj b => BVal.beqF a b
  | _, _ => false

/-- Deep equality of value lists, element by element. -/
def BVal.beqL : List BVal → List BVal → Bool
  | [], [] => true
  | x :: xs, y :: ys => BVal.beq x y && BVal.beqL xs ys
  | _, _ => false

/-- Deep equality of ordered field lists: names and values in order. -/
def BVal.beqF : List (String × BVal) → List (String × BVal) → Bool
  | [], [] => true
  | (k, v) :: xs, (l, w) :: ys => k == l && BVal.beq v w && BVal.beqF xs ys
  | _, _ => false

end

/-- Modelled from the spec: look up a field by name in an object's ordered
field list (first match). -/
def lookupF (k : String) : List (String × BVal) → Option BVal
  | [] => none
  | kv :: rest => if kv.1 = k then some kv.2 else lookupF k rest

/-- Modelled from the spec: replace the value of the first field named `k`. -/
def replaceF (k : String) (v : BVal) : List (String × BVal) → List (String × BVal)
  | [] => []
  | kv :: rest => if kv.1 = k then (kv.1, v) :: rest else kv :: replaceF k v rest

/-- Modelled from the spec: remove the first field named `k`. -/
def removeF (k : String) : List (String × BVal) → List (String × BVal)
  | [] => []
  | kv :: rest => if kv.1 = k then rest else kv :: removeF k rest

/-- Split a character list at dots, accumulating the current component in
reverse. -/
def splitPathAux : List Char → List Char → List String
  | [], acc => [String.mk acc.reverse]
  | c :: cs, acc =>
    if c = '.' then String.mk acc.reverse :: splitPathAux cs []
    else splitPathAux cs (c :: acc)

/-- Modelled from the spec: a field path is a dotted sequence of components,
each a literal name or a numeric array index. -/
def parsePath (s : String) : List String := splitPathAux s.data []

/-- Accumulate the decimal value of a digit list, failing on a non-digit. -/
def toIndexAux : List Char → Nat → Option Nat
  | [], acc => some acc
  | c :: cs, acc =>
    if c.isDigit then toIndexAux cs (acc * 10 + (c.toNat - 48)) else none

/-- Modelled from the spec: interpret a path component as a numeric array
index when it is a non-empty string of decimal digits. -/
def toIndex (s : String) : Option Nat :=
  match s.data with
  | [] => none
  | l => toIndexAux l 0

/-- Modelled from the spec: resolve a path in a document.  An object child is
found by name; an array child by numeric index; a missing field, an
out-of-bounds index, a non-numeric component against an array, or any
descent through a scalar resolves to `none` (the "absent" sentinel). -/
def getPath : BVal → List String → Option BVal
  | v, [] => some v
  | .obj fs, c :: rest =>
    match lookupF c fs with
    | some child => getPath child rest
    | none => none
  | .arr xs, c :: rest =>
    match toIndex c with
    | some i =>
      match xs[i]? with
      | some child => getPath child rest
      | none => none
    | none => none
  | _, _ :: _ => none

/-- Modelled from the spec: write a value at a path, creating missing
intermediate object nodes but never growing arrays; fails (`none`) when the
path cannot be resolved structurally (descending through a scalar, an
out-of-bounds array index, or a non-numeric component against an array). -/
def setPath : BVal → List String → BVal → Option BVal
  | _, [], nv => some nv
  | .obj fs, c :: rest, nv =>
    match lookupF c fs with
    | some child =>
      match setPath child rest nv with
      | some child2 => some (.obj (replaceF c child2 fs))
      | none => none
    | none =>
      match setPath (.obj []) rest nv with
      | some child2 => some (.obj (fs ++ [(c, child2)]))
      | none => none
  | .arr xs, c :: rest, nv =>
    match toIndex c with
    | some i =>
      match xs[i]? with
      | some child =>
        match setPath child rest nv with
        | some child2 => some (.arr (xs.set i child2))
        | none => none
      | none => none
    | none => none
  | _, _ :: _, _ => none

/-- Modelled from the spec: remove the subtree at a path.  Returns the new
document together with a flag telling whether the path existed before the
removal (an absent path is a harmless no-op on the tree). -/
def removePath : BVal → List String → BVal × Bool
  | d, [] => (d, false)
  | .obj fs, [c] =>
    match lookupF c fs with
    | some _ => (.obj (removeF c fs), true)
    | none => (.obj fs, false)
  | .obj fs, c :: rest =>
    match lookupF c fs with
    | some child =>
      let r := removePath child rest
      (.obj (replaceF c r.1 fs), r.2)
    | none => (.obj fs, false)
  | .arr xs, [c] =>
    match toIndex c with
    | some i => if i < xs.length then (.arr (xs.eraseIdx i), true) else (.arr xs, false)
    | none => (.arr xs, false)
  | .arr xs, c :: rest =>
    match toIndex c with
    | some i =>
      match xs[i]? with
      | some child =>
        let r := removePath child rest
        (.arr (xs.set i r.1), r.2)
      | none => (.arr xs, false)
    | none => (.arr xs, false)
  | d, _ :: _ => (d, false)

/-- Modelled from the spec: bounded array append — append all `each` values
to the array, then, when a slice bound is given, keep `|slice|` elements
from the end if the bound is negative and from the front if non-negative. -/
def boundedAppend (xs each : List BVal) (slice : Option Int) : List BVal :=
  let full := xs ++ each
  match slice with
  | none => full
  | some b =>
    if b < 0 then full.drop (full.length - b.natAbs)
    else full.take b.toNat

/-- Modelled from the spec: one parsed update instruction — operator kind,
target field path and operator-specific operand. -/
inductive Modifier where
  | set (p : List String) (v : BVal)
  | unset (p : List String)
  | push (p : List String) (each : List BVal) (slice : Option Int)
  | pushAll (p : List String) (vs : List BVal)
  | setOnInsert (p : List String) (v : BVal)

/-- Modelled from the spec: a parsed update specification is either an
ordered modifier sequence or a full-document replacement. -/
inductive ParsedUpdate where
  | mods (ms : List Modifier)
  | repl (doc : BVal)

/-- Modelled from the spec: apply a set-style write at a path.  When the
current value is deep-equal to the operand this is a true no-op: the tree
is returned unchanged and the path is not reported as touched; otherwise
the value is written and the path reported. -/
def applySet (d : BVal) (p : List String) (v : BVal) :
    Option (BVal × Option (List String)) :=
  match getPath d p with
  | some cur =>
    if BVal.beq cur v then some (d, none)
    else
      match setPath d p v with
      | some d2 => some (d2, some p)
      | none => none
  | none =>
    match setPath d p v with
    | some d2 => some (d2, some p)
    | none => none

/-- Modelled from the spec: apply an array append (bounded when a slice is
given), creating the array if absent, failing on a non-array target; the
path is always reported as touched, with no equality pre-check. -/
def applyPush (d : BVal) (p : List String) (each : List BVal)
    (slice : Option Int) : Option (BVal × Option (List String)) :=
  match getPath d p with
  | some (.arr xs) =>
    match setPath d p (.arr (boundedAppend xs each slice)) with
    | some d2 => some (d2, some p)
    | none => none
  | some _ => none
  | none =>
    match setPath d p (.arr (boundedAppend [] each slice)) with
    | some d2 => some (d2, some p)
    | none => none

/-- Modelled from the spec: apply one modifier to the document, returning
the new document and the touched path, if any.  `$unset` reports its path
iff the path existed; `$setOnInsert` is a pure no-op unless the evaluation
is an insert. -/
def applyMod (isInsert : Bool) (d : BVal) : Modifier → Option (BVal × Option (List String))
  | .set p v => applySet d p v
  | .unset p =>
    let r := removePath d p
    some (r.1, if r.2 then some p else none)
  | .push p each slice => applyPush d p each slice
  | .pushAll p vs => applyPush d p vs none
  | .setOnInsert p v => if isInsert then applySet d p v else some (d, none)

/-- Modelled from the spec: apply a modifier sequence in declaration order,
collecting the Touched-Path Set; any single failure aborts the whole
application. -/
def applyMods (isInsert : Bool) : List Modifier → BVal → Option (BVal × List (List String))
  | [], d => some (d, [])
  | m :: ms, d =>
    match applyMod isInsert d m with
    | none => none
    | some (d1, t) =>
      match applyMods isInsert ms d1 with
      | none => none
      | some (d2, ts) =>
        some (d2, match t with | some p => p :: ts | none => ts)

/-- Modelled from the spec: a full-document replacement uses the new
document verbatim, re-assigning the immutable identity field from the
original when the original has one. -/
def applyReplacement (pre r : BVal) : BVal :=
  match pre with
  | .obj pfs =>
    match lookupF "_id" pfs, r with
    | some idv, .obj rfs => .obj (("_id", idv) :: removeF "_id" rfs)
    | _, _ => r
  | _ => r

/-- Modelled from the spec: two field paths overlap when one is a
(non-strict) prefix of the other — equal, ancestor, or descendant. -/
def overlaps (a b : List String) : Bool := a.isPrefixOf b || b.isPrefixOf a

/-- Modelled from the spec: the advisory affect flag — true iff some
touched path overlaps some path of the shard-key pattern. -/
def modsAffect (pattern touched : List (List String)) : Bool :=
  touched.any (fun t => pattern.any (fun k => overlaps t k))

/-- Modelled from the spec: run a parsed update against a pre-image under a
shard-key pattern, returning the post-image and the advisory
modsAffectShardKeys flag.  A replacement is treated as always affecting
any shard-key path that exists in the pattern. -/
def runUpdate (u : ParsedUpdate) (pattern : List (List String)) (pre : BVal) :
    Option (BVal × Bool) :=
  match u with
  | .mods ms =>
    match applyMods false ms pre with
    | some (post, ts) => some (post, modsAffect pattern ts)
    | none => none
  | .repl r => some (applyReplacement pre r, !pattern.isEmpty)

/-- Modelled from the spec: deep equality of two resolved path values,
with the absent sentinel (`none`) distinct from every present value. -/
def optBeq : Option BVal → Option BVal → Bool
  | none, none => true
  | some a, some b => BVal.beq a b
  | _, _ => false

/-- Modelled from the spec: whether one shard-key path resolves to
deep-equal values in the pre-image and the post-image. -/
def keyUnchanged (pre post : BVal) (p : List String) : Bool :=
  optBeq (getPath pre p) (getPath post p)

/-- Modelled from the spec: the authoritative invariance verifier —
succeed iff every shard-key path resolves to deep-equal values in both
images, otherwise fail naming the first offending path. -/
def checkShardKeysUnaltered (pattern : List (List String)) (pre post : BVal) :
    Except (List String) Unit :=
  match pattern.find? (fun p => ! keyUnchanged pre post p) with
  | some p => .error p
  | none => .ok ()

/-- Modelled from the spec: the recognized modifier operator names. -/
def knownOps : List String := ["$set", "$unset", "$push", "$pushAll", "$setOnInsert"]

/-- Modelled from the spec: a top-level key is an operator key when it
starts with the operator sigil. -/
def isOpKey (k : String) : Bool :=
  match k.data with
  | c :: _ => c == Char.ofNat 36
  | [] => false

/-- Modelled from the spec: parse a single `$push` operand — either a
structured each/slice object (batched bounded append) or a plain value
appended as a one-element batch. -/
def parsePushOperand (p : List String) (v : BVal) : Except String Modifier :=
  match v with
  | .obj fs =>
    match lookupF "$each" fs with
    | some (.arr es) =>
      match lookupF "$slice" fs with
      | some (.num b) => .ok (.push p es (some b))
      | some _ => .error "slice operand must be numeric"
      | none => .ok (.push p es none)
    | some _ => .error "each operand must be an array"
    | none => .ok (.push p [v] none)
  | _ => .ok (.push p [v] none)

/-- Modelled from the spec: parse one operator block into its modifiers,
one per (operator, field) pair; an operand that is not a non-empty
field map, or an unrecognized operator, is a parse error. -/
def parseOpBlock (op : String) (v : BVal) : Except String (List Modifier) :=
  if op = "$set" then
    match v with
    | .obj fs =>
      if fs.isEmpty then .error "empty operator map"
      else .ok (fs.map (fun kv => Modifier.set (parsePath kv.1) kv.2))
    | _ => .error "wrong operand shape"
  else if op = "$unset" then
    match v with
    | .obj fs =>
      if fs.isEmpty then .error "empty operator map"
      else .ok (fs.map (fun kv => Modifier.unset (parsePath kv.1)))
    | _ => .error "wrong operand shape"
  else if op = "$setOnInsert" then
    match v with
    | .obj fs =>
      if fs.isEmpty then .error "empty operator map"
      else .ok (fs.map (fun kv => Modifier.setOnInsert (parsePath kv.1) kv.2))
    | _ => .error "wrong operand shape"
  else if op = "$push" then
    match v with
    | .obj fs =>
      if fs.isEmpty then .error "empty operator map"
      else fs.mapM (fun kv => parsePushOperand (parsePath kv.1) kv.2)
    | _ => .error "wrong operand shape"
  else if op = "$pushAll" then
    match v with
    | .obj fs =>
      if fs.isEmpty then .error "empty operator map"
      else
        fs.mapM (fun kv =>
          match kv.2 with
          | .arr vs => Except.ok (Modifier.pushAll (parsePath kv.1) vs)
          | _ => Except.error "pushAll operand must hold arrays")
    | _ => .error "wrong operand shape"
  else .error "unknown modifier"

/-- Modelled from the spec: parse all operator blocks in declaration
order, concatenating their modifiers; the first block error aborts. -/
def parseModBlocks : List (String × BVal) → Except String (List Modifier)
  | [] => .ok []
  | kv :: rest =>
    match parseOpBlock kv.1 kv.2 with
    | .error e => .error e
    | .ok ms =>
      match parseModBlocks rest with
      | .error e => .error e
      | .ok ms2 => .ok (ms ++ ms2)

/-- Modelled from the spec: parse an update specification — all plain keys
means a full-document replacement, all operator keys means a modifier
sequence, a mix is an error, and an empty specification is an error. -/
def parse (spec : List (String × BVal)) : Except String ParsedUpdate :=
  if spec.isEmpty then .error "empty update specification"
  else if spec.all (fun kv => ! isOpKey kv.1) then .ok (.repl (.obj spec))
  else if spec.any (fun kv => ! isOpKey kv.1) then
    .error "cannot mix modifiers and replacement"
  else
    match parseModBlocks spec with
    | .ok ms => .ok (.mods ms)
    | .error e => .error e

/-- Modelled from the spec: count of parsed modifiers, zero for a
replacement. -/
def numMods : ParsedUpdate → Nat
  | .mods ms => ms.length
  | .repl _ => 0

/-- Modelled from the spec: whether the whole specification is a
replacement document. -/
def isDocReplacement : ParsedUpdate → Bool
  | .mods _ => false
  | .repl _ => true

/-- Whether an `Except` result is an error. -/
def isErr {ε α : Type} : Except ε α → Bool
  | .error _ => true
  | .ok _ => false

/-- The shard-key test fixture document from the driver tests. -/
def testDoc : BVal :=
  .obj [("x", .arr [.num 1]),
        ("s", .obj [("a", .arr [.num 1]),
                    ("b", .arr [.num 2]),
                    ("c", .arr [.num 3, .num 3, .num 3])])]

/-- The shard-key pattern of the driver tests. -/
def testPattern : List (List String) := [["s", "a"], ["s", "c"]]

/-- A decoded legacy wire message: namespace, the int32 flags field (the
reserved field for inserts, the pulled flags for updates and deletes), and
the sequence of BSON objects that follow the header. -/
structure WireMsg where
  ns : String
  flags : Nat
  objs : List BVal

/-- Modelled from the spec: legacy wire-protocol flag bit for
continue-on-error inserts (`Reserved_InsertOption_ContinueOnError` of
dbmessage.h, which is not under the sources). -/
def reservedInsertOptionContinueOnError : Nat := 1

/-- Modelled from the spec: legacy wire-protocol flag bit for upsert
(`UpdateOption_Upsert`). -/
def updateOptionUpsert : Nat := 1

/-- Modelled from the spec: legacy wire-protocol flag bit for multi-update
(`UpdateOption_Multi`). -/
def updateOptionMulti : Nat := 2

/-- Modelled from the spec: legacy wire-protocol flag bit for single-remove
(`RemoveOption_JustOne`). -/
def removeOptionJustOne : Nat := 1

/-- The kind of a batched write command request
(`BatchedCommandRequest::BatchType`). -/
inductive BatchType where
  | insert
  | update
  | delete
deriving DecidableEq

/-- One item of a batched update request (`BatchedUpdateDocument`). -/
structure BatchedUpdateDocument where
  query : BVal
  updateExpr : BVal
  upsert : Bool
  multi : Bool

/-- One item of a batched delete request (`BatchedDeleteDocument`). -/
structure BatchedDeleteDocument where
  query : BVal
  limit : Int

/-- A normalized batch command request as built by the upconverter; the
ordered flag is `none` when `setOrdered` was never called. -/
structure BatchedCommandRequest where
  batchType : BatchType
  ns : String
  ordered : Option Bool
  writeConcern : BVal
  documents : List BVal
  updates : List BatchedUpdateDocument
  deletes : List BatchedDeleteDocument

/-- Embedding of `msgToBatchInsert`: read the namespace and the
continue-on-error reserved bit, then read documents in a do/while loop —
the first read is unconditional, so a message with zero documents fails;
continue-on-error maps to unordered. -/
def msgToBatchInsert (m : WireMsg) : Option BatchedCommandRequest :=
  let coe : Bool := (m.flags &&& reservedInsertOptionContinueOnError) != 0
  match m.objs with
  | [] => none
  | d :: rest =>
    some ⟨BatchType.insert, m.ns, some (! coe), .obj [], d :: rest, [], []⟩

/-- Embedding of `msgToBatchUpdate`: pull the flags int, read the query
and the update expression, and build a one-item update batch; upsert and
multi come from the flag bits, the write concern defaults to the empty
document, and `setOrdered` is never called. -/
def msgToBatchUpdate (m : WireMsg) : Option BatchedCommandRequest :=
  let upsert : Bool := (m.flags &&& updateOptionUpsert) != 0
  let multi : Bool := (m.flags &&& updateOptionMulti) != 0
  match m.objs with
  | query :: updateExpr :: _ =>
    some ⟨BatchType.update, m.ns, none, .obj [], [],
          [⟨query, updateExpr, upsert, multi⟩], []⟩
  | _ => none

/-- Embedding of `msgToBatchDelete`: pull the flags int, read the query,
and build a one-item delete batch with limit 1 when the just-one bit is
set and 0 otherwise. -/
def msgToBatchDelete (m : WireMsg) : Option BatchedCommandRequest :=
  let limit : Int := if (m.flags &&& removeOptionJustOne) != 0 then 1 else 0
  match m.objs with
  | query :: _ =>
    some ⟨BatchType.delete, m.ns, none, .obj [], [], [], [⟨query, limit⟩]⟩
  | _ => none

/-- The fields of a batched command response that `toLastError` reads. -/
structure BatchedCommandResponse where
  ok : Bool
  errCode : Int
  errMessage : String
  n : Int

/-- What `toLastError` records on the client-visible LastError object:
an error with code and message, update statistics, delete statistics, or
nothing at all. -/
inductive LastErrorRecord where
  | errorRecord (code : Int) (msg : String)
  | updateStats (updatedExisting : Bool) (n : Int) (upsertedId : BVal)
  | deleteStats (n : Int)
  | nothingRecorded

/-- Embedding of `toLastError`: a non-ok response raises only the error
code and message and returns; a successful response records update
statistics (updated-existing iff n is nonzero, with an always-empty
upserted id) for update batches, the deleted count for delete batches,
and nothing for insert batches. -/
def toLastError (req : BatchedCommandRequest) (resp : BatchedCommandResponse) :
    LastErrorRecord :=
  if ! resp.ok then .errorRecord resp.errCode resp.errMessage
  else
    match req.batchType with
    | .update => .updateStats (resp.n != 0) resp.n (.obj [])
    | .delete => .deleteStats resp.n
    | .insert => .nothingRecorded

/-- The `$unset` specification of ShardKeyTest.UnsettingShardKeyFieldRejected. -/
def unsetSASpec : List (String × BVal) := [("$unset", .obj [("s.a", .num 1)])]

/-- The identical replacement document of
ShardKeyTest.OverwriteShardKeyFieldWithSameValueIsNotAnErrorObjectReplace. -/
def identReplSpec : List (String × BVal) :=
  [("x", .arr [.num 1]),
   ("s", .obj [("a", .arr [.num 1]),
               ("b", .arr [.num 2]),
               ("c", .arr [.num 3, .num 3, .num 3])])]

/-- The test document after `$unset` of the shard-key field s.a. -/
def testDocNoSA : BVal :=
  .obj [("x", .arr [.num 1]),
        ("s", .obj [("b", .arr [.num 2]),
                    ("c", .arr [.num 3, .num 3, .num 3])])]

/-- The bounded-push specification of
ShardKeyTest.SettingShardKeyFieldToSameValueIsNotRejected. -/
def pushSA1Spec : List (String × BVal) :=
  [("$push", .obj [("s.a", .obj [("$each", .arr [.num 1]), ("$slice", .num (-1))])])]

/-- The bounded-push specification of
ShardKeyTest.SettingShardKeyChildrenToSameValueIsNotRejected. -/
def pushSC3Spec : List (String × BVal) :=
  [("$push", .obj [("s.c", .obj [("$each", .arr [.num 3]), ("$slice", .num (-3))])])]

/-- The no-op `$set` specification of ShardKeyTest.NoOpsDoNotAffectShardKeys. -/
def noopSetSpec : List (String × BVal) :=
  [("$set", .obj [("s.a.0", .num 1), ("s.c.0", .num 3)])]

/-- The test document with a fresh unrelated field z appended. -/
def testDocWithZ : BVal :=
  .obj [("x", .arr [.num 1]),
        ("s", .obj [("a", .arr [.num 1]),
                    ("b", .arr [.num 2]),
                    ("c", .arr [.num 3, .num 3, .num 3])]),
        ("z", .num 1)]

/-! Helper lemmas about the embedded definitions. -/

mutual

/-- Deep equality is reflexive. -/
theorem BVal.beq_refl : (a : BVal) → BVal.beq a a = true
  | .num _ => by simp [BVal.beq]
  | .str _ => by simp [BVal.beq]
  | .boolean _ => by simp [BVal.beq]
  | .null => rfl
  | .arr xs => by simpa [BVal.beq] using BVal.beqL_refl xs
  | .obj fs => by simpa [BVal.beq] using BVal.beqF_refl fs

/-- Deep equality of value lists is reflexive. -/
theorem BVal.beqL_refl : (xs : List BVal) → BVal.beqL xs xs = true
  | [] => rfl
  | x :: xs => by simp [BVal.beqL, BVal.beq_refl x, BVal.beqL_refl xs]

/-- Deep equality of field lists is reflexive. -/
theorem BVal.beqF_refl : (fs : List (String × BVal)) → BVal.beqF fs fs = true
  | [] => rfl
  | (k, v) :: fs => by simp [BVal.beqF, BVal.beq_refl v, BVal.beqF_refl fs]

end

/-- Resolved-value equality is reflexive. -/
theorem optBeq_refl (o : Option BVal) : optBeq o o = true := by
  cases o with
  | none => rfl
  | some a => simpa [optBeq] using BVal.beq_refl a

/-- The invariance verifier accepts identical pre- and post-images. -/
theorem checkShardKeys_self (pattern : List (List String)) (d : BVal) :
    checkShardKeysUnaltered pattern d d = .ok () := by
  unfold checkShardKeysUnaltered
  have hnone : pattern.find? (fun p => ! keyUnchanged d d p) = none := by
    rw [List.find?_eq_none]
    intro p _
    simp [keyUnchanged, optBeq_refl]
  rw [hnone]

/-- Setting an index of a list to the element already there is the
identity. -/
theorem set_self_of_getElem {α : Type} :
    ∀ (l : List α) (i : Nat) (a : α), l[i]? = some a → l.set i a = l
  | [], _, _, h => by simp at h
  | _ :: _, 0, _, h => by
    simp only [List.getElem?_cons_zero, Option.some.injEq] at h
    simp [List.set, h]
  | x :: xs, i + 1, a, h => by
    simp only [List.getElem?_cons_succ] at h
    simp [List.set, set_self_of_getElem xs i a h]

/-- Replacing a field's value with the value it already has is the
identity on the field list. -/
theorem replaceF_self (c : String) (v : BVal) :
    ∀ fs : List (String × BVal), lookupF c fs = some v → replaceF c v fs = fs := by
  intro fs
  induction fs with
  | nil => intro h; simp [lookupF] at h
  | cons kv rest ih =>
    obtain ⟨k, w⟩ := kv
    intro h
    by_cases hk : k = c
    · simp only [lookupF, hk, if_pos] at h
      simp only [Option.some.injEq] at h
      simp [replaceF, hk, h]
    · simp only [lookupF, hk, if_false] at h
      simp [replaceF, hk, ih h]

/-- Looking up a field after replacing its value finds the new value. -/
theorem lookupF_replaceF (c : String) (v w : BVal) :
    ∀ fs : List (String × BVal), lookupF c fs = some w →
      lookupF c (replaceF c v fs) = some v := by
  intro fs
  induction fs with
  | nil => intro h; simp [lookupF] at h
  | cons kv rest ih =>
    intro h
    by_cases hk : kv.1 = c
    · simp [replaceF, lookupF, hk]
    · simp only [lookupF, hk, if_neg, if_false] at h
      simp [replaceF, lookupF, hk, ih h]

/-- Looking up a freshly appended field finds it when it was absent. -/
theorem lookupF_append (c : String) (v : BVal) :
    ∀ fs : List (String × BVal), lookupF c fs = none →
      lookupF c (fs ++ [(c, v)]) = some v := by
  intro fs
  induction fs with
  | nil => intro _; simp [lookupF]
  | cons kv rest ih =>
    intro h
    by_cases hk : kv.1 = c
    · simp [lookupF, hk] at h
    · simp only [lookupF, hk, if_neg, if_false] at h
      simp [lookupF, hk, List.cons_append, ih h]

/-- Writing back the value a path already resolves to leaves the document
unchanged. -/
theorem setPath_same :
    ∀ (p : List String) (d v : BVal), getPath d p = some v → setPath d p v = some d
  | [], d, v, h => by
    simp only [getPath, Option.some.injEq] at h
    simp [setPath, h]
  | c :: rest, d, v, h => by
    cases d with
    | obj fs =>
      simp only [getPath] at h
      cases hl : lookupF c fs with
      | none => simp [hl] at h
      | some child =>
        simp only [hl] at h
        have ih := setPath_same rest child v h
        simp [setPath, hl, ih, replaceF_self c child fs hl]
    | arr xs =>
      simp only [getPath] at h
      cases hn : toIndex c with
      | none => simp [hn] at h
      | some i =>
        simp only [hn] at h
        cases hg : xs[i]? with
        | none => simp [hg] at h
        | some child =>
          simp only [hg] at h
          have ih := setPath_same rest child v h
          simp [setPath, hn, hg, ih, set_self_of_getElem xs i child hg]
    | num n => simp [getPath] at h
    | str s => simp [getPath] at h
    | boolean b => simp [getPath] at h
    | null => simp [getPath] at h

/-- After a successful write, the path resolves to the written value. -/
theorem getPath_setPath :
    ∀ (p : List String) (d v d2 : BVal), setPath d p v = some d2 → getPath d2 p = some v
  | [], _, v, d2, h => by
    simp only [setPath, Option.some.injEq] at h
    simp [getPath, ← h]
  | c :: rest, d, v, d2, h => by
    cases d with
    | obj fs =>
      simp only [setPath] at h
      cases hl : lookupF c fs with
      | some child =>
        simp only [hl] at h
        cases hs : setPath child rest v with
        | none => simp [hs] at h
        | some child2 =>
          simp only [hs, Option.some.injEq] at h
          subst h
          have ih := getPath_setPath rest child v child2 hs
          simp [getPath, lookupF_replaceF c child2 child fs hl, ih]
      | none =>
        simp only [hl] at h
        cases hs : setPath (.obj []) rest v with
        | none => simp [hs] at h
        | some child2 =>
          simp only [hs, Option.some.injEq] at h
          subst h
          have ih := getPath_setPath rest (.obj []) v child2 hs
          simp [getPath, lookupF_append c child2 fs hl, ih]
    | arr xs =>
      simp only [setPath] at h
      cases hn : toIndex c with
      | none => simp [hn] at h
      | some i =>
        simp only [hn] at h
        cases hg : xs[i]? with
        | none => simp [hg] at h
        | some child =>
          simp only [hg] at h
          cases hs : setPath child rest v with
          | none => simp [hs] at h
          | some child2 =>
            simp only [hs, Option.some.injEq] at h
            subst h
            have hlt : i < xs.length := by
              by_contra hge
              rw [List.getElem?_eq_none (by omega)] at hg
              exact absurd hg (by simp)
            have ih := getPath_setPath rest child v child2 hs
            simp [getPath, hn, List.getElem?_set_eq_of_lt child2 hlt, ih]
    | num n => simp [setPath] at h
    | str s => simp [setPath] at h
    | boolean b => simp [setPath] at h
    | null => simp [setPath] at h

/-- A write along a path that already resolves always succeeds. -/
theorem setPath_of_getPath :
    ∀ (p : List String) (d w v : BVal), getPath d p = some w →
      ∃ d2, setPath d p v = some d2
  | [], d, _, v, _ => ⟨v, by simp [setPath]⟩
  | c :: rest, d, w, v, h => by
    cases d with
    | obj fs =>
      simp only [getPath] at h
      cases hl : lookupF c fs with
      | none => simp [hl] at h
      | some child =>
        simp only [hl] at h
        obtain ⟨c2, hc2⟩ := setPath_of_getPath rest child w v h
        exact ⟨.obj (replaceF c c2 fs), by simp [setPath, hl, hc2]⟩
    | arr xs =>
      simp only [getPath] at h
      cases hn : toIndex c with
      | none => simp [hn] at h
      | some i =>
        simp only [hn] at h
        cases hg : xs[i]? with
        | none => simp [hg] at h
        | some child =>
          simp only [hg] at h
          obtain ⟨c2, hc2⟩ := setPath_of_getPath rest child w v h
          exact ⟨.arr (xs.set i c2), by simp [setPath, hn, hg, hc2]⟩
    | num n => simp [getPath] at h
    | str s => simp [getPath] at h
    | boolean b => simp [getPath] at h
    | null => simp [getPath] at h

/-- A successful `find?` splits the list at the first satisfying element. -/
theorem find?_first {α : Type} (f : α → Bool) :
    ∀ (l : List α) (a : α), l.find? f = some a →
      ∃ l1 l2, l = l1 ++ a :: l2 ∧ (∀ x ∈ l1, f x = false) ∧ f a = true
  | [], a, h => by simp [List.find?] at h
  | x :: xs, a, h => by
    by_cases hx : f x = true
    · rw [List.find?_cons_of_pos _ hx] at h
      simp only [Option.some.injEq] at h
      subst h
      exact ⟨[], xs, rfl, by simp, hx⟩
    · rw [List.find?_cons_of_neg _ (by simpa using hx)] at h
      obtain ⟨l1, l2, hsplit, hall, ha⟩ := find?_first f xs a h
      exact ⟨x :: l1, l2, by simp [hsplit], by
        intro y hy
        rcases List.mem_cons.mp hy with hy | hy
        · subst hy; simpa using hx
        · exact hall y hy, ha⟩

/-- C1: the invariance verifier succeeds iff every shard-key path resolves
to deep-equal values in the pre-image and the post-image, with the absent
sentinel distinct from every present value; on failure it names the first
offending path; in particular it fails when a shard-key field is removed
by `$unset`, and it succeeds for a full-document replacement with
identical shard-key values even though the advisory flag is true. -/
theorem c1_shard_key_verifier :
    (∀ (pattern : List (List String)) (pre post : BVal),
        checkShardKeysUnaltered pattern pre post = .ok () ↔
          ∀ p ∈ pattern, keyUnchanged pre post p = true)
  ∧ (∀ v : BVal, optBeq none (some v) = false ∧ optBeq (some v) none = false)
  ∧ (∀ (pattern : List (List String)) (pre post : BVal) (p : List String),
        checkShardKeysUnaltered pattern pre post = .error p →
          ∃ l1 l2, pattern = l1 ++ p :: l2 ∧
            (∀ q ∈ l1, keyUnchanged pre post q = true) ∧
            keyUnchanged pre post p = false)
  ∧ (∃ u post, parse unsetSASpec = .ok u ∧
        runUpdate u testPattern testDoc = some (post, true) ∧
        checkShardKeysUnaltered testPattern testDoc post = .error ["s", "a"])
  ∧ (∃ u post, parse identReplSpec = .ok u ∧
        runUpdate u testPattern testDoc = some (post, true) ∧
        checkShardKeysUnaltered testPattern testDoc post = .ok ()) := by
  refine ⟨?_, ?_, ?_, ?_, ?_⟩
  · intro pattern pre post
    unfold checkShardKeysUnaltered
    cases hf : pattern.find? (fun p => ! keyUnchanged pre post p) with
    | some p =>
      simp only [hf]
      constructor
      · intro hcontr; exact absurd hcontr (by simp)
      · intro hall
        have hp := List.find?_some hf
        simp only [Bool.not_eq_eq_eq_not, Bool.not_true] at hp
        exact absurd (hall p (List.mem_of_find?_eq_some hf)) (by simp [hp])
    | none =>
      simp only [hf]
      constructor
      · intro _ p hp
        have hq := List.find?_eq_none.mp hf p hp
        simpa using hq
      · intro _; trivial
  · intro v; exact ⟨rfl, rfl⟩
  · intro pattern pre post p h
    unfold checkShardKeysUnaltered at h
    cases hf : pattern.find? (fun q => ! keyUnchanged pre post q) with
    | none => rw [hf] at h; exact absurd h (by simp)
    | some q =>
      rw [hf] at h
      simp only [Except.error.injEq] at h
      obtain ⟨l1, l2, hsplit, hall, hqq⟩ := find?_first _ pattern q hf
      refine ⟨l1, l2, h ▸ hsplit, ?_, ?_⟩
      · intro x hx
        have := hall x hx
        simpa using this
      · have hfls : keyUnchanged pre post q = false := by simpa using hqq
        exact h ▸ hfls
  · exact ⟨.mods [.unset ["s", "a"]], testDocNoSA, rfl, rfl, rfl⟩
  · exact ⟨.repl (.obj identReplSpec), .obj identReplSpec, rfl, rfl, rfl⟩

/-- Witness for C1: the failure clause applied to the unset post-image of
the shard-key test fixture, naming the first offending path s.a. -/
theorem c1_shard_key_verifier_witness :
    ∃ l1 l2, testPattern = l1 ++ ["s", "a"] :: l2 ∧
      (∀ q ∈ l1, keyUnchanged testDoc testDocNoSA q = true) ∧
      keyUnchanged testDoc testDocNoSA ["s", "a"] = false :=
  c1_shard_key_verifier.2.2.1 testPattern testDoc testDocNoSA ["s", "a"] rfl

/-- C2: a `$push` with each/slice always reports its path touched with no
equality pre-check, so on a shard-key path the advisory flag is true even
when the bounded append leaves the array unchanged, while the
authoritative check succeeds on the pre/post images; instantiated on the
two bounded-push fixtures of the driver tests. -/
theorem c2_push_always_flagged :
    (∀ (i : Bool) (d : BVal) (p : List String) (each : List BVal)
        (slice : Option Int) (r : BVal × Option (List String)),
        applyMod i d (.push p each slice) = some r → r.2 = some p)
  ∧ (∀ (d : BVal) (p : List String) (xs each : List BVal) (slice : Option Int)
        (pattern : List (List String)),
        getPath d p = some (.arr xs) →
        boundedAppend xs each slice = xs →
        (∃ k ∈ pattern, overlaps p k = true) →
        runUpdate (.mods [.push p each slice]) pattern d = some (d, true) ∧
        checkShardKeysUnaltered pattern d d = .ok ())
  ∧ (∃ u post, parse pushSA1Spec = .ok u ∧
        runUpdate u testPattern testDoc = some (post, true) ∧
        checkShardKeysUnaltered testPattern testDoc post = .ok ())
  ∧ (∃ u post, parse pushSC3Spec = .ok u ∧
        runUpdate u testPattern testDoc = some (post, true) ∧
        checkShardKeysUnaltered testPattern testDoc post = .ok ()) := by
  refine ⟨?_, ?_, ?_, ?_⟩
  · intro i d p each slice r h
    simp only [applyMod, applyPush] at h
    split at h
    · split at h
      · simp only [Option.some.injEq] at h
        rw [← h]
      · simp at h
    · simp at h
    · split at h
      · simp only [Option.some.injEq] at h
        rw [← h]
      · simp at h
  · intro d p xs each slice pattern hg heq hk
    have hset : setPath d p (.arr (boundedAppend xs each slice)) = some d := by
      rw [heq]
      exact setPath_same p d (.arr xs) hg
    have happ : applyMods false [.push p each slice] d = some (d, [p]) := by
      simp [applyMods, applyMod, applyPush, hg, hset]
    have haff : modsAffect pattern [p] = true := by
      obtain ⟨k, hkmem, hov⟩ := hk
      simp only [modsAffect, List.any_eq_true]
      exact ⟨p, List.mem_singleton_self p, k, hkmem, hov⟩
    refine ⟨?_, checkShardKeys_self pattern d⟩
    simp [runUpdate, happ, haff]
  · exact ⟨.mods [.push ["s", "a"] [.num 1] (some (-1))], testDoc, rfl, rfl, rfl⟩
  · exact ⟨.mods [.push ["s", "c"] [.num 3] (some (-3))], testDoc, rfl, rfl, rfl⟩

/-- Witness for C2: the bounded push of 1 with slice -1 onto s.a of the
test fixture is content-preserving, flagged as affecting, and accepted by
the verifier. -/
theorem c2_push_always_flagged_witness :
    runUpdate (.mods [.push ["s", "a"] [.num 1] (some (-1))]) testPattern testDoc
      = some (testDoc, true) ∧
    checkShardKeysUnaltered testPattern testDoc testDoc = .ok () :=
  c2_push_always_flagged.2.1 testDoc ["s", "a"] [.num 1] [.num 1] (some (-1))
    testPattern rfl rfl ⟨["s", "a"], by simp [testPattern], rfl⟩

/-- C3: a `$set` whose operand is deep-equal to the value already at the
path is a true no-op — the tree is unchanged and the path is not touched
— so the fixture update setting s.a.0 to 1 and s.c.0 to 3 leaves the
advisory flag false and passes the authoritative check. -/
theorem c3_noop_set :
    (∀ (d : BVal) (p : List String) (v cur : BVal),
        getPath d p = some cur → BVal.beq cur v = true →
        applySet d p v = some (d, none))
  ∧ (∃ u, parse noopSetSpec = .ok u ∧
        runUpdate u testPattern testDoc = some (testDoc, false) ∧
        checkShardKeysUnaltered testPattern testDoc testDoc = .ok ()) := by
  constructor
  · intro d p v cur hg hb
    simp [applySet, hg, hb]
  · exact ⟨.mods [.set ["s", "a", "0"] (.num 1), .set ["s", "c", "0"] (.num 3)],
      rfl, rfl, rfl⟩

/-- Witness for C3: setting x to its current value [1] in the test
fixture is a true no-op. -/
theorem c3_noop_set_witness :
    applySet testDoc ["x"] (.arr [.num 1]) = some (testDoc, none) :=
  c3_noop_set.1 testDoc ["x"] (.arr [.num 1]) (.arr [.num 1]) rfl rfl

/-- C4: the advisory flag is true iff some touched path is equal to, a
strict ancestor of, or a strict descendant of some shard-key pattern
path; updates touching only unrelated fields (x and s.b, or a fresh z)
report false under the test pattern. -/
theorem c4_affect_tracker :
    (∀ (pattern touched : List (List String)),
        modsAffect pattern touched = true ↔
          ∃ t ∈ touched, ∃ k ∈ pattern,
            t = k ∨ (t <+: k ∧ t ≠ k) ∨ (k <+: t ∧ k ≠ t))
  ∧ (∀ (ms : List Modifier) (pre post : BVal) (ts : List (List String))
        (pattern : List (List String)),
        applyMods false ms pre = some (post, ts) →
        runUpdate (.mods ms) pattern pre = some (post, modsAffect pattern ts))
  ∧ (∃ u post, parse [("$set", .obj [("x", .num 2), ("s.b", .str "x")])] = .ok u ∧
        runUpdate u testPattern testDoc = some (post, false))
  ∧ (∃ u post, parse [("$unset", .obj [("x", .num 1), ("s.b", .num 1)])] = .ok u ∧
        runUpdate u testPattern testDoc = some (post, false))
  ∧ (∃ u post, parse [("$set", .obj [("z", .num 1)])] = .ok u ∧
        runUpdate u testPattern testDoc = some (post, false)) := by
  refine ⟨?_, ?_, ?_, ?_, ?_⟩
  · intro pattern touched
    simp only [modsAffect, List.any_eq_true]
    constructor
    · rintro ⟨t, ht, k, hk, hov⟩
      refine ⟨t, ht, k, hk, ?_⟩
      simp only [overlaps, Bool.or_eq_true, List.isPrefixOf_iff_prefix] at hov
      by_cases he : t = k
      · exact Or.inl he
      · rcases hov with h1 | h2
        · exact Or.inr (Or.inl ⟨h1, he⟩)
        · exact Or.inr (Or.inr ⟨h2, fun hkk => he hkk.symm⟩)
    · rintro ⟨t, ht, k, hk, hcase⟩
      refine ⟨t, ht, k, hk, ?_⟩
      simp only [overlaps, Bool.or_eq_true, List.isPrefixOf_iff_prefix]
      rcases hcase with he | ⟨h1, _⟩ | ⟨h2, _⟩
      · subst he; exact Or.inl (List.prefix_refl t)
      · exact Or.inl h1
      · exact Or.inr h2
  · intro ms pre post ts pattern h
    simp [runUpdate, h]
  · exact ⟨.mods [.set ["x"] (.num 2), .set ["s", "b"] (.str "x")], _, rfl, rfl⟩
  · exact ⟨.mods [.unset ["x"], .unset ["s", "b"]], _, rfl, rfl⟩
  · exact ⟨.mods [.set ["z"] (.num 1)], testDocWithZ, rfl, rfl⟩

/-- Witness for C4: running the fixture update that adds the fresh field
z computes its advisory flag as `modsAffect` of the touched set. -/
theorem c4_affect_tracker_witness :
    runUpdate (.mods [.set ["z"] (.num 1)]) testPattern testDoc
      = some (testDocWithZ, modsAffect testPattern [["z"]]) :=
  c4_affect_tracker.2.1 [.set ["z"] (.num 1)] testDoc testDocWithZ [["z"]]
    testPattern rfl

/-- C5: `$push` with each/slice appends the each values and truncates to
the absolute bound — keeping a suffix for a negative bound, a prefix for
a non-negative bound, the empty array for bound 0 — creating the array
when the path is absent; pushing [2] with slice -1 onto [1] yields [2]. -/
theorem c5_bounded_push :
    (∀ (xs each : List BVal) (b : Int),
        (boundedAppend xs each (some b)).length
          = min b.natAbs (xs.length + each.length))
  ∧ (∀ (xs each : List BVal) (b : Int), b < 0 →
        boundedAppend xs each (some b) <:+ xs ++ each)
  ∧ (∀ (xs each : List BVal) (b : Int), 0 ≤ b →
        boundedAppend xs each (some b) <+: xs ++ each)
  ∧ (∀ xs each : List BVal, boundedAppend xs each (some 0) = [])
  ∧ (∀ (d : BVal) (p : List String) (xs each : List BVal) (sl : Option Int),
        getPath d p = some (.arr xs) →
        ∃ d2, applyMod false d (.push p each sl) = some (d2, some p) ∧
          getPath d2 p = some (.arr (boundedAppend xs each sl)))
  ∧ (∀ (d : BVal) (p : List String) (each : List BVal) (sl : Option Int)
        (d2 : BVal) (t : Option (List String)),
        getPath d p = none → applyMod false d (.push p each sl) = some (d2, t) →
        getPath d2 p = some (.arr (boundedAppend [] each sl)))
  ∧ (∃ u post,
        parse [("$push", .obj [("p", .obj [("$each", .arr [.num 2]),
                                           ("$slice", .num (-1))])])] = .ok u ∧
        runUpdate u [] (.obj [("p", .arr [.num 1])]) = some (post, false) ∧
        getPath post ["p"] = some (.arr [.num 2])) := by
  refine ⟨?_, ?_, ?_, ?_, ?_, ?_, ?_⟩
  · intro xs each b
    simp only [boundedAppend]
    split
    · simp only [List.length_drop, List.length_append]
      omega
    · simp only [List.length_take, List.length_append]
      omega
  · intro xs each b hb
    simp only [boundedAppend, if_pos hb]
    exact List.drop_suffix _ _
  · intro xs each b hb
    simp only [boundedAppend, if_neg (by omega : ¬ (b < 0))]
    exact List.take_prefix _ _
  · intro xs each
    simp [boundedAppend]
  · intro d p xs each sl hg
    obtain ⟨d2, hs⟩ :=
      setPath_of_getPath p d (.arr xs) (.arr (boundedAppend xs each sl)) hg
    exact ⟨d2, by simp [applyMod, applyPush, hg, hs],
      getPath_setPath p d (.arr (boundedAppend xs each sl)) d2 hs⟩
  · intro d p each sl d2 t hg h
    simp only [applyMod, applyPush, hg] at h
    cases hs : setPath d p (.arr (boundedAppend [] each sl)) with
    | none => rw [hs] at h; exact absurd h (by simp)
    | some d3 =>
      rw [hs] at h
      simp only [Option.some.injEq] at h
      have hd : d3 = d2 := congrArg Prod.fst h
      rw [← hd]
      exact getPath_setPath p d (.arr (boundedAppend [] each sl)) d3 hs
  · exact ⟨.mods [.push ["p"] [.num 2] (some (-1))],
      .obj [("p", .arr [.num 2])], rfl, rfl, rfl⟩

/-- Witness for C5: the bounded push of [2] with slice -1 onto the array
[1] at path p succeeds and leaves [2] at p. -/
theorem c5_bounded_push_witness :
    ∃ d2, applyMod false (.obj [("p", .arr [.num 1])]) (.push ["p"] [.num 2] (some (-1)))
        = some (d2, some ["p"]) ∧
      getPath d2 ["p"] = some (.arr (boundedAppend [.num 1] [.num 2] (some (-1)))) :=
  c5_bounded_push.2.2.2.2.1 (.obj [("p", .arr [.num 1])]) ["p"] [.num 1] [.num 2]
    (some (-1)) rfl

/-- An empty field map under any operator key is a block parse error. -/
theorem parseOpBlock_emptyMap (op : String) :
    isErr (parseOpBlock op (.obj [])) = true := by
  unfold parseOpBlock
  split_ifs <;> simp [isErr]

/-- Every recognized operator name is an operator key. -/
theorem knownOps_isOpKey : ∀ k ∈ knownOps, isOpKey k = true := by decide

/-- An unrecognized operator name is a block parse error. -/
theorem parseOpBlock_unknown (op : String) (v : BVal) (h : op ∉ knownOps) :
    isErr (parseOpBlock op v) = true := by
  simp only [knownOps, List.mem_cons, List.not_mem_nil, or_false, not_or] at h
  obtain ⟨h1, h2, h3, h4, h5⟩ := h
  unfold parseOpBlock
  simp [h1, h2, h3, h4, h5, isErr]

/-- A recognized operator given a non-object operand is a block parse
error. -/
theorem parseOpBlock_wrongShape (op : String) (v : BVal) (hop : op ∈ knownOps)
    (hv : ∀ fs, v ≠ .obj fs) : isErr (parseOpBlock op v) = true := by
  have hops : op = "$set" ∨ op = "$unset" ∨ op = "$push" ∨ op = "$pushAll" ∨
      op = "$setOnInsert" := by simpa [knownOps] using hop
  rcases hops with h | h | h | h | h <;> subst h <;>
    cases v <;>
      first
        | exact absurd rfl (hv _)
        | simp [parseOpBlock, isErr]

/-- A block error on any member of a specification makes the whole
modifier parse fail. -/
theorem parseModBlocks_err :
    ∀ (spec : List (String × BVal)) (k : String) (v : BVal),
      (k, v) ∈ spec → isErr (parseOpBlock k v) = true →
      isErr (parseModBlocks spec) = true
  | [], _, _, hmem, _ => by simp at hmem
  | kv :: rest, k, v, hmem, herr => by
    rcases List.mem_cons.mp hmem with he | hm
    · subst he
      cases hpb : parseOpBlock k v with
      | error e => simp [parseModBlocks, hpb, isErr]
      | ok ms => rw [hpb] at herr; simp [isErr] at herr
    · have ih := parseModBlocks_err rest k v hm herr
      cases hpb : parseOpBlock kv.1 kv.2 with
      | error e => simp [parseModBlocks, hpb, isErr]
      | ok ms =>
        cases hpr : parseModBlocks rest with
        | error e => simp [parseModBlocks, hpb, hpr, isErr]
        | ok ms2 => rw [hpr] at ih; simp [isErr] at ih

/-- A specification containing an operator key whose block errors fails
to parse. -/
theorem parse_err_of_member (spec : List (String × BVal)) (k : String) (v : BVal)
    (hmem : (k, v) ∈ spec) (hop : isOpKey k = true)
    (herr : isErr (parseOpBlock k v) = true) : isErr (parse spec) = true := by
  unfold parse
  split_ifs with h1 h2 h3
  · cases spec with
    | nil => simp at hmem
    | cons kv rest => simp [List.isEmpty] at h1
  · rw [List.all_eq_true] at h2
    have := h2 (k, v) hmem
    simp [hop] at this
  · simp [isErr]
  · cases hpm : parseModBlocks spec with
    | error e => simp [isErr]
    | ok ms =>
      have := parseModBlocks_err spec k v hmem herr
      rw [hpm] at this
      simp [isErr] at this

/-- C6: parse fails, before any mutation, on every specification that
mixes operator and plain keys, contains an operator with an empty field
map, contains an unrecognized operator key, or gives a recognized
operator a non-object operand. -/
theorem c6_parse_errors :
    (∀ spec : List (String × BVal),
        (∃ kv ∈ spec, isOpKey kv.1 = true) → (∃ kv ∈ spec, isOpKey kv.1 = false) →
        isErr (parse spec) = true)
  ∧ (∀ (spec : List (String × BVal)) (k : String),
        (k, BVal.obj []) ∈ spec → isOpKey k = true → isErr (parse spec) = true)
  ∧ (∀ (spec : List (String × BVal)) (k : String) (v : BVal),
        (k, v) ∈ spec → isOpKey k = true → k ∉ knownOps →
        isErr (parse spec) = true)
  ∧ (∀ (spec : List (String × BVal)) (k : String) (v : BVal),
        (k, v) ∈ spec → k ∈ knownOps → (∀ fs, v ≠ .obj fs) →
        isErr (parse spec) = true) := by
  refine ⟨?_, ?_, ?_, ?_⟩
  · intro spec hexop hexpl
    obtain ⟨kv1, hm1, hop1⟩ := hexop
    obtain ⟨kv2, hm2, hpl2⟩ := hexpl
    unfold parse
    split_ifs with h1 h2 h3
    · cases spec with
      | nil => simp at hm1
      | cons kv rest => simp [List.isEmpty] at h1
    · rw [List.all_eq_true] at h2
      have := h2 kv1 hm1
      simp [hop1] at this
    · simp [isErr]
    · exfalso
      apply h3
      rw [List.any_eq_true]
      exact ⟨kv2, hm2, by simp [hpl2]⟩
  · intro spec k hmem hop
    exact parse_err_of_member spec k (.obj []) hmem hop (parseOpBlock_emptyMap k)
  · intro spec k v hmem hop hunk
    exact parse_err_of_member spec k v hmem hop (parseOpBlock_unknown k v hunk)
  · intro spec k v hmem hknown hv
    exact parse_err_of_member spec k v hmem (knownOps_isOpKey k hknown)
      (parseOpBlock_wrongShape k v hknown hv)

/-- Witness for C6: the four failing parses exercised by the driver
parse tests — mixing, empty map, unknown operator, wrong operand shape. -/
theorem c6_parse_errors_witness :
    isErr (parse [("$set", .obj [("a", .num 1)]), ("obj", .str "obj replacement")]) = true ∧
    isErr (parse [("$set", .obj [])]) = true ∧
    isErr (parse [("$xyz", .obj [("a", .num 1)])]) = true ∧
    isErr (parse [("$set", .arr [.obj [("a", .num 1)]])]) = true :=
  ⟨c6_parse_errors.1 _ ⟨("$set", .obj [("a", .num 1)]), List.mem_cons_self _ _, rfl⟩
      ⟨("obj", .str "obj replacement"), by simp, rfl⟩,
   c6_parse_errors.2.1 _ "$set" (List.mem_cons_self _ _) rfl,
   c6_parse_errors.2.2.1 _ "$xyz" (.obj [("a", .num 1)]) (List.mem_cons_self _ _)
     rfl (by decide),
   c6_parse_errors.2.2.2 _ "$set" (.arr [.obj [("a", .num 1)]])
     (List.mem_cons_self _ _) (by decide) (fun fs h => BVal.noConfusion h)⟩

/-- C7: after a successful parse, numMods counts the (operator, field)
pairs — 2 for a two-field $set and 2 for a $set plus $unset — a plain
replacement parses with isDocReplacement true and numMods 0, and every
modifier-style parse result has isDocReplacement false. -/
theorem c7_numMods :
    (∃ u, parse [("$set", .obj [("a", .num 1), ("b", .num 1)])] = .ok u ∧
        numMods u = 2 ∧ isDocReplacement u = false)
  ∧ (∃ u, parse [("$set", .obj [("a", .num 1)]), ("$unset", .obj [("b", .num 1)])] = .ok u ∧
        numMods u = 2 ∧ isDocReplacement u = false)
  ∧ (∃ u, parse [("obj", .str "obj replacement")] = .ok u ∧
        isDocReplacement u = true ∧ numMods u = 0)
  ∧ (∀ ms : List Modifier, isDocReplacement (.mods ms) = false) :=
  ⟨⟨.mods [.set ["a"] (.num 1), .set ["b"] (.num 1)], rfl, rfl, rfl⟩,
   ⟨.mods [.set ["a"] (.num 1), .unset ["b"]], rfl, rfl, rfl⟩,
   ⟨.repl (.obj [("obj", .str "obj replacement")]), rfl, rfl, rfl⟩,
   fun _ => rfl⟩

/-- C8: each legacy wire message upconverts to a batch request carrying
the message's namespace and an empty write concern; an update request
holds exactly one item with the message's query and update expression and
upsert/multi iff the flag bits are set; a delete request holds one item
with limit 1 iff the just-one bit is set and 0 otherwise; an insert
request holds the message's documents with ordered iff continue-on-error
is unset. -/
theorem c8_upconvert :
    (∀ (m : WireMsg) (r : BatchedCommandRequest), msgToBatchUpdate m = some r →
        r.batchType = .update ∧ r.ns = m.ns ∧ r.writeConcern = .obj [] ∧
        r.documents = [] ∧ r.deletes = [] ∧
        ∃ q e rest, m.objs = q :: e :: rest ∧
          ∃ ud, r.updates = [ud] ∧ ud.query = q ∧ ud.updateExpr = e ∧
            (ud.upsert = true ↔ m.flags &&& updateOptionUpsert ≠ 0) ∧
            (ud.multi = true ↔ m.flags &&& updateOptionMulti ≠ 0))
  ∧ (∀ (m : WireMsg) (r : BatchedCommandRequest), msgToBatchDelete m = some r →
        r.batchType = .delete ∧ r.ns = m.ns ∧ r.writeConcern = .obj [] ∧
        r.documents = [] ∧ r.updates = [] ∧
        ∃ q rest, m.objs = q :: rest ∧
          ∃ dd, r.deletes = [dd] ∧ dd.query = q ∧
            (dd.limit = 1 ↔ m.flags &&& removeOptionJustOne ≠ 0) ∧
            (dd.limit = 0 ↔ m.flags &&& removeOptionJustOne = 0))
  ∧ (∀ (m : WireMsg) (r : BatchedCommandRequest), msgToBatchInsert m = some r →
        r.batchType = .insert ∧ r.ns = m.ns ∧ r.writeConcern = .obj [] ∧
        r.documents = m.objs ∧ r.updates = [] ∧ r.deletes = [] ∧
        ∃ o, r.ordered = some o ∧
          (o = true ↔ m.flags &&& reservedInsertOptionContinueOnError = 0)) := by
  refine ⟨?_, ?_, ?_⟩
  · intro m r h
    simp only [msgToBatchUpdate] at h
    cases hobjs : m.objs with
    | nil => simp [hobjs] at h
    | cons q rest1 =>
      cases rest1 with
      | nil => simp [hobjs] at h
      | cons e rest =>
        simp only [hobjs, Option.some.injEq] at h
        subst h
        refine ⟨rfl, rfl, rfl, rfl, rfl, q, e, rest, rfl, _, rfl, rfl, rfl, ?_, ?_⟩
        · simp
        · simp
  · intro m r h
    simp only [msgToBatchDelete] at h
    cases hobjs : m.objs with
    | nil => simp [hobjs] at h
    | cons q rest =>
      simp only [hobjs, Option.some.injEq] at h
      subst h
      refine ⟨rfl, rfl, rfl, rfl, rfl, q, rest, rfl, _, rfl, rfl, ?_, ?_⟩
      · by_cases hb : m.flags &&& removeOptionJustOne = 0 <;> simp [hb]
      · by_cases hb : m.flags &&& removeOptionJustOne = 0 <;> simp [hb]
  · intro m r h
    simp only [msgToBatchInsert] at h
    cases hobjs : m.objs with
    | nil => simp [hobjs] at h
    | cons d rest =>
      simp only [hobjs, Option.some.injEq] at h
      subst h
      refine ⟨rfl, rfl, rfl, rfl, rfl, rfl, _, rfl, ?_⟩
      by_cases hb : m.flags &&& reservedInsertOptionContinueOnError = 0 <;> simp [hb]

/-- Witness for C8: upconverting a concrete legacy update message with
the upsert bit set. -/
theorem c8_upconvert_witness :
    ∃ r, msgToBatchUpdate ⟨"test.coll", 1, [.obj [("q", .num 1)], .obj [("u", .num 2)]]⟩
        = some r ∧
      r.ns = "test.coll" ∧ r.writeConcern = .obj [] ∧
      ∃ ud, r.updates = [ud] ∧ (ud.upsert = true ↔ (1 : Nat) &&& updateOptionUpsert ≠ 0) := by
  obtain ⟨hbt, hns, hwc, hdoc, hdel, q, e, rest, hobjs, ud, hupd, hq, he, hup, hmu⟩ :=
    c8_upconvert.1 ⟨"test.coll", 1, [.obj [("q", .num 1)], .obj [("u", .num 2)]]⟩ _ rfl
  exact ⟨_, rfl, hns, hwc, ud, hupd, hup⟩

/-- C9: toLastError on a failed response raises only the error code and
message; on success it records statistics only for update batches
(updated-existing iff n is nonzero, with an always-empty upserted id) and
delete batches, and nothing for insert batches. -/
theorem c9_toLastError :
    (∀ (req : BatchedCommandRequest) (resp : BatchedCommandResponse),
        resp.ok = false →
        toLastError req resp = .errorRecord resp.errCode resp.errMessage)
  ∧ (∀ (req : BatchedCommandRequest) (resp : BatchedCommandResponse),
        resp.ok = true → req.batchType = .insert →
        toLastError req resp = .nothingRecorded)
  ∧ (∀ (req : BatchedCommandRequest) (resp : BatchedCommandResponse),
        resp.ok = true → req.batchType = .update →
        toLastError req resp = .updateStats (resp.n != 0) resp.n (.obj []))
  ∧ (∀ (req : BatchedCommandRequest) (resp : BatchedCommandResponse),
        resp.ok = true → req.batchType = .delete →
        toLastError req resp = .deleteStats resp.n) := by
  refine ⟨?_, ?_, ?_, ?_⟩ <;>
    intro req resp h1 <;>
    first
      | (intro h2; simp [toLastError, h1, h2])
      | simp [toLastError, h1]

/-- Witness for C9: a failed response records exactly the error code and
message. -/
theorem c9_toLastError_witness :
    toLastError ⟨.insert, "test.coll", none, .obj [], [], [], []⟩ ⟨false, 11000, "dup", 0⟩
      = .errorRecord 11000 "dup" :=
  c9_toLastError.1 ⟨.insert, "test.coll", none, .obj [], [], [], []⟩
    ⟨false, 11000, "dup", 0⟩ rfl

/-- C10: the insert upconverter reads one document unconditionally before
checking for more, so a successful insert batch holds at least one
document and a zero-document legacy insert message fails. -/
theorem c10_insert_nonempty :
    (∀ m : WireMsg, m.objs = [] → msgToBatchInsert m = none)
  ∧ (∀ (m : WireMsg) (r : BatchedCommandRequest),
        msgToBatchInsert m = some r → 1 ≤ r.documents.length) := by
  constructor
  · intro m hm
    simp [msgToBatchInsert, hm]
  · intro m r h
    simp only [msgToBatchInsert] at h
    cases hobjs : m.objs with
    | nil => simp [hobjs] at h
    | cons d rest =>
      simp only [hobjs, Option.some.injEq] at h
      subst h
      simp

/-- Witness for C10: the empty legacy insert message fails to upconvert,
and a one-document message yields a one-document batch. -/
theorem c10_insert_nonempty_witness :
    msgToBatchInsert ⟨"test.coll", 0, []⟩ = none ∧
    1 ≤ (msgToBatchInsert ⟨"test.coll", 0, [.obj []]⟩).elim 0
          (fun r => r.documents.length) := by
  constructor
  · exact c10_insert_nonempty.1 ⟨"test.coll", 0, []⟩ rfl
  · exact c10_insert_nonempty.2 ⟨"test.coll", 0, [.obj []]⟩ _ rfl

end Mongo
